import Mathlib

/-!
Verification model of the retrieval and benchmarking core of the repository
(`src/agent/core/retrieval.py` and `src/agent/core/retrieval_benchmark.py`).

Python floats are modelled by `ℚ` (exact rational arithmetic, the ideal
semantics of the float expressions in the source).  The single call to
`math.sqrt` — applied only to sums of squared token counts, which are natural
numbers — is threaded through every definition as an explicit parameter
`s : ℕ → ℚ`; general theorems hold for every such function, and concrete
evaluations instantiate it with `ratSqrt` (exact on perfect squares, where it
agrees with `math.sqrt`).  `round(x, 4)` is modelled by exact round-half-even
at four decimal places (`round4`).  Python's stable `sorted(..., reverse=True)`
is modelled by a stable descending insertion sort (any two stable sorts of the
same key agree).  `time.perf_counter` durations are nondeterministic wall-clock
readings; they are threaded as an explicit oracle `dur : String → ℚ`.
-/

namespace Retrieval

/-- Largest `k ≤ m` with `k * k ≤ n` (counting down from `m`); `natSqrtAux n n`
is the integer square root of `n`. -/
def natSqrtAux (m n : ℕ) : ℕ :=
  match m with
  | 0 => 0
  | k + 1 => if (k + 1) * (k + 1) ≤ n then k + 1 else natSqrtAux k n

/-- `math.sqrt` stand-in used for concrete evaluation: the integer square
root, exact on perfect squares (the only points where concrete theorems below
depend on its value). -/
def ratSqrt (n : ℕ) : ℚ := (natSqrtAux n n : ℚ)

/-- Round-half-even of a rational to an integer (Python's `round` on exact
values). -/
def roundHE (q : ℚ) : ℤ :=
  if q - ⌊q⌋ < 1/2 then ⌊q⌋
  else if 1/2 < q - ⌊q⌋ then ⌊q⌋ + 1
  else if ⌊q⌋ % 2 = 0 then ⌊q⌋ else ⌊q⌋ + 1

/-- `round(x, 4)` from the source: round half-even at four decimal places. -/
def round4 (q : ℚ) : ℚ := (roundHE (q * 10000) : ℚ) / 10000

/-- The whitespace characters `str.split()` splits on (ASCII fragment). -/
def pyIsSpace (c : Char) : Bool :=
  c = ' ' || c = '\t' || c = '\n' || c = '\x0d' || c = '\x0b' || c = '\x0c'

/-- `text.split()`: split on runs of whitespace, never producing empty
pieces. -/
def pySplitAux : List Char → List Char → List (List Char)
  | [], cur => if cur = [] then [] else [cur.reverse]
  | c :: cs, cur =>
      if pyIsSpace c then
        (if cur = [] then pySplitAux cs [] else cur.reverse :: pySplitAux cs [])
      else pySplitAux cs (c :: cur)

def pySplit (cs : List Char) : List (List Char) := pySplitAux cs []

/-- `str.strip(chars)`: drop leading and trailing characters belonging to
`set`. -/
def pyStrip (set : List Char) (cs : List Char) : List Char :=
  ((cs.dropWhile (· ∈ set)).reverse.dropWhile (· ∈ set)).reverse

/-- The characters of the strip argument in `_tokenize`.  In the source the
argument is the concatenation of the adjacent literals `".,;:!?()[]{}<>"` and
`"'\n\t"`, so the double-quote character itself is NOT in the set. -/
def punctChars : List Char :=
  ['.', ',', ';', ':', '!', '?', '(', ')', '[', ']', '{', '}', '<', '>',
   '\'', '\n', '\t']

/-- Whitespace characters stripped by the guard's bare `t.strip()`. -/
def wsChars : List Char := [' ', '\t', '\n', '\x0d', '\x0b', '\x0c']

/-- `_tokenize`: `[t.strip(PUNCT).lower() for t in text.split() if t.strip()]`.
Note the guard checks `t.strip()` (whitespace strip of the raw piece, which is
never empty after `split()`), not the punctuation-stripped result. -/
def tokenize (text : String) : List String :=
  ((pySplit text.data).filter (fun t => pyStrip wsChars t ≠ [])).map
    (fun t => String.mk ((pyStrip punctChars t).map Char.toLower))

/-- Keys of `collections.Counter` in first-occurrence order. -/
def uniqKeys : List String → List String
  | [] => []
  | t :: ts => t :: (uniqKeys ts).filter (fun u => u ≠ t)

/-- `Counter(tokens)` as an association list: keys in first-occurrence order,
each with its total multiplicity. -/
def counts (tokens : List String) : List (String × ℕ) :=
  (uniqKeys tokens).map (fun t => (t, tokens.count t))

/-- `sum(v * v for v in counter.values())` — always a natural number. -/
def cntNormSq (c : List (String × ℕ)) : ℕ :=
  (c.map (fun p => p.2 * p.2)).sum

/-- `_normalize`: `norm = math.sqrt(sum(v*v)) or 1.0`, then divide every
count by the norm. -/
def normalize (s : ℕ → ℚ) (c : List (String × ℕ)) : List (String × ℚ) :=
  let r := s (cntNormSq c)
  let d := if r = 0 then 1 else r
  c.map (fun p => (p.1, (p.2 : ℚ) / d))

/-- `embed_text`: bag-of-words counts of the tokens, L2-normalized. -/
def embed_text (s : ℕ → ℚ) (text : String) : List (String × ℚ) :=
  normalize s (counts (tokenize text))

/-- `query_vector.get(tok, 0.0)`. -/
def getW (v : List (String × ℚ)) (tok : String) : ℚ :=
  (v.lookup tok).getD 0

/-- `InMemoryVectorIndex.similarity`: dot product driven by the document
vector's entries. -/
def similarity (q d : List (String × ℚ)) : ℚ :=
  (d.map (fun p => getW q p.1 * p.2)).sum

/-- Sum of squared weights of a term vector (its squared L2 norm). -/
def sumSqWeights (v : List (String × ℚ)) : ℚ :=
  (v.map (fun p => p.2 ^ 2)).sum

structure IndexedDocument where
  id : String
  vector : List (String × ℚ)
  summary : String
  tags : List String
  modality : String
  sources : List String
  deriving DecidableEq, Repr, Inhabited

structure RetrievalHit where
  id : String
  score : ℚ
  summary : String
  tags : List String
  modality : String
  sources : List String
  deriving DecidableEq, Repr, Inhabited

/-- `InMemoryVectorIndex.add`: append a freshly embedded document. -/
def indexAdd (s : ℕ → ℚ) (docs : List IndexedDocument) (doc_id text summary : String)
    (tags : List String) (modality : String) (sources : List String) :
    List IndexedDocument :=
  docs ++ [{ id := doc_id, vector := embed_text s text, summary := summary,
             tags := tags, modality := modality, sources := sources }]

/-- Python list slicing `l[:k]` for an `int` bound `k` (negative `k` keeps all
but the last `-k` elements). -/
def pyTake (k : ℤ) (l : List α) : List α :=
  if 0 ≤ k then l.take k.toNat else l.take (l.length - (-k).toNat)

/-- One insertion step of the stable descending sort by score. -/
def insertHit (a : RetrievalHit) : List RetrievalHit → List RetrievalHit
  | [] => [a]
  | b :: l => if a.score < b.score then b :: insertHit a l else a :: b :: l

/-- `sorted(hits, key=lambda h: h.score, reverse=True)`: stable descending
sort by score (insertion sort; stable sorts are unique, so this agrees with
Python's timsort). -/
def sortHits : List RetrievalHit → List RetrievalHit
  | [] => []
  | a :: l => insertHit a (sortHits l)

/-- `InMemoryVectorIndex.query`: score every stored document by the rounded
dot product with the embedded query, sort descending, truncate to `top_k`. -/
def indexQuery (s : ℕ → ℚ) (docs : List IndexedDocument) (text : String)
    (top_k : ℤ) : List RetrievalHit :=
  let qv := embed_text s text
  pyTake top_k (sortHits (docs.map (fun d =>
    { id := d.id, score := round4 (similarity qv d.vector), summary := d.summary,
      tags := d.tags, modality := d.modality, sources := d.sources })))

/-- The boost configuration of a `RetrievalEngine` (its index state is passed
separately as the document list). -/
structure EngineCfg where
  tagBoost : ℚ
  sourceBoost : ℚ
  deriving DecidableEq, Repr, Inhabited

/-- `set(_tokenize(text))`. -/
def tokenSet (text : String) : Finset String := (tokenize text).toFinset

/-- The per-hit adjustment inside `RetrievalEngine.query`: add
`tag_boost * |query_tokens ∩ set(hit.tags)|` and `source_boost` when the hit
has sources, then round to 4 decimals. -/
def engineAdjust (cfg : EngineCfg) (qt : Finset String) (h : RetrievalHit) :
    RetrievalHit :=
  { h with score := round4 (h.score
      + cfg.tagBoost * ((qt ∩ h.tags.toFinset).card : ℚ)
      + (if h.sources = [] then 0 else cfg.sourceBoost)) }

/-- `RetrievalEngine.query`: adjust each hit the index returned, re-sort
descending, truncate to `top_k` again. -/
def engineQuery (s : ℕ → ℚ) (cfg : EngineCfg) (docs : List IndexedDocument)
    (text : String) (top_k : ℤ) : List RetrievalHit :=
  pyTake top_k (sortHits
    ((indexQuery s docs text top_k).map (engineAdjust cfg (tokenSet text))))

/-- `KnowledgeSlice` (from `io.py`): the fields `RetrievalEngine.ingest_bundle`
consumes.  The pydantic validator on `highlights` drops empty strings at
construction; the builders below apply it. -/
structure KnowledgeSlice where
  id : String
  summary : String
  highlights : List String
  modality : String
  sourceRefs : List String
  tags : List String
  deriving DecidableEq, Repr, Inhabited

/-- A `KnowledgeBundle` is its ordered slice list (timestamps/trace ids are
irrelevant to retrieval). -/
abbrev KnowledgeBundle := List KnowledgeSlice

/-- One step of `RetrievalEngine.ingest_bundle`: index the slice under the
text `" ".join([slice_.summary, *slice_.highlights])`. -/
def ingestSlice (s : ℕ → ℚ) (docs : List IndexedDocument) (sl : KnowledgeSlice) :
    List IndexedDocument :=
  indexAdd s docs sl.id (String.intercalate " " (sl.summary :: sl.highlights))
    sl.summary sl.tags sl.modality sl.sourceRefs

/-- `RetrievalEngine.ingest_bundle` over a fresh (reset) index. -/
def ingestBundle (s : ℕ → ℚ) (bundle : KnowledgeBundle) : List IndexedDocument :=
  bundle.foldl (ingestSlice s) []

/-- An entry of `KnowledgeBundle.from_texts`: id, payload text
(content/caption/transcript), tags.  None of the benchmark entries carries a
`sources` key, so `source_refs` is `[]`. -/
structure BundleEntry where
  id : String
  content : String
  tags : List String
  deriving DecidableEq, Repr, Inhabited

/-- `KnowledgeBundle.from_texts`: text slices, then image slices, then audio
slices; each slice's summary is the payload and its highlights are the
single-element list of the payload (empty payloads filtered by the
validator). -/
def fromTexts (texts images audio : List BundleEntry) : KnowledgeBundle :=
  (texts.map (fun e =>
    { id := e.id, summary := e.content,
      highlights := [e.content].filter (fun h => h ≠ ""), modality := "text",
      sourceRefs := [], tags := e.tags }))
  ++ (images.map (fun e =>
    { id := e.id, summary := e.content,
      highlights := [e.content].filter (fun h => h ≠ ""), modality := "image",
      sourceRefs := [], tags := e.tags }))
  ++ (audio.map (fun e =>
    { id := e.id, summary := e.content,
      highlights := [e.content].filter (fun h => h ≠ ""), modality := "audio",
      sourceRefs := [], tags := e.tags }))

structure RetrievalBenchmarkCase where
  id : String
  bundle : KnowledgeBundle
  query : String
  relevantIds : List String
  topK : ℤ
  deriving DecidableEq, Repr, Inhabited

structure RetrievalBenchmarkResult where
  caseId : String
  hits : List RetrievalHit
  precisionAtK : ℚ
  recallAtK : ℚ
  relevantFound : List String
  deriving DecidableEq, Repr, Inhabited

structure RetrievalBenchmarkSuite where
  results : List RetrievalBenchmarkResult
  macroPrecision : ℚ
  macroRecall : ℚ
  deriving DecidableEq, Repr, Inhabited

/-- The body of `RetrievalBenchmarkRunner.run` for one case: reset the engine,
ingest the case's bundle, query, and score.  (The reset makes the per-case
computation independent of previously ingested cases, so the shared mutable
engine of the source is equivalent to this per-case form.) -/
def caseResult (s : ℕ → ℚ) (cfg : EngineCfg) (case : RetrievalBenchmarkCase) :
    RetrievalBenchmarkResult :=
  let docs := ingestBundle s case.bundle
  let hits := engineQuery s cfg docs case.query case.topK
  let hitIds := hits.map (fun h => h.id)
  let relevantFound := hitIds.filter (fun hid => hid ∈ case.relevantIds)
  { caseId := case.id, hits := hits,
    precisionAtK :=
      round4 ((relevantFound.length : ℚ) / (max hits.length 1 : ℕ)),
    recallAtK :=
      round4 ((relevantFound.length : ℚ) / (max case.relevantIds.length 1 : ℕ)),
    relevantFound := relevantFound }

/-- `RetrievalBenchmarkRunner.run`: per-case results plus macro means of the
per-case metrics, rounded to 4 decimals. -/
def benchRun (s : ℕ → ℚ) (cfg : EngineCfg) (cases : List RetrievalBenchmarkCase) :
    RetrievalBenchmarkSuite :=
  let perCase := cases.map (caseResult s cfg)
  { results := perCase,
    macroPrecision :=
      round4 (((perCase.map (fun r => r.precisionAtK)).sum) / (max perCase.length 1 : ℕ)),
    macroRecall :=
      round4 (((perCase.map (fun r => r.recallAtK)).sum) / (max perCase.length 1 : ℕ)) }

structure AdapterBenchmarkResult where
  adapter : String
  suite : RetrievalBenchmarkSuite
  durationMs : ℚ
  deriving DecidableEq, Repr, Inhabited

structure AutomatedBenchmarkSummary where
  runs : List AdapterBenchmarkResult
  macroPrecision : ℚ
  macroRecall : ℚ
  history : Option (List AdapterBenchmarkResult)
  deriving DecidableEq, Repr, Inhabited

/-- `deque(maxlen=limit).append`: append on the right, evicting from the left
once the capacity is exceeded. -/
def pushBounded (limit : ℕ) (hist : List AdapterBenchmarkResult)
    (x : AdapterBenchmarkResult) : List AdapterBenchmarkResult :=
  let h := hist ++ [x]
  h.drop (h.length - limit)

/-- The adapter loop of `AutomatedBenchmarkRunner.run_all`: skip unregistered
names, otherwise build the adapter's engine, run the benchmark suite, record
the run and (when tracking) append it to the bounded history.  `dur` is the
wall-clock duration oracle. -/
def runAllGo (s : ℕ → ℚ) (adapters : List (String × EngineCfg))
    (dur : String → ℚ) (cases : List RetrievalBenchmarkCase) (track : Bool)
    (limit : ℕ) :
    List String → List AdapterBenchmarkResult × List AdapterBenchmarkResult →
      List AdapterBenchmarkResult × List AdapterBenchmarkResult
  | [], acc => acc
  | n :: ns, acc =>
      match adapters.lookup n with
      | none => runAllGo s adapters dur cases track limit ns acc
      | some cfg =>
          let r : AdapterBenchmarkResult :=
            { adapter := n, suite := benchRun s cfg cases, durationMs := dur n }
          runAllGo s adapters dur cases track limit ns
            (acc.1 ++ [r], if track then pushBounded limit acc.2 r else acc.2)

/-- `AutomatedBenchmarkRunner.run_all`, returning the summary together with
the runner's history after the call.  `adapterNames = none` models the absent
argument; `names = adapter_names or list(self.adapters.keys())` makes the
empty list fall back to all registered names. -/
def runAll (s : ℕ → ℚ) (adapters : List (String × EngineCfg))
    (dur : String → ℚ) (cases : List RetrievalBenchmarkCase)
    (adapterNames : Option (List String)) (track : Bool) (limit : ℕ)
    (hist : List AdapterBenchmarkResult) :
    AutomatedBenchmarkSummary × List AdapterBenchmarkResult :=
  let names :=
    match adapterNames with
    | none => adapters.map (fun p => p.1)
    | some l => if l = [] then adapters.map (fun p => p.1) else l
  let rh := runAllGo s adapters dur cases track limit names ([], hist)
  ({ runs := rh.1,
     macroPrecision :=
       round4 (((rh.1.map (fun r => r.suite.macroPrecision)).sum) / (max rh.1.length 1 : ℕ)),
     macroRecall :=
       round4 (((rh.1.map (fun r => r.suite.macroRecall)).sum) / (max rh.1.length 1 : ℕ)),
     history := if track then some rh.2 else none }, rh.2)

/-- `default_adapter_factories`. -/
def defaultAdapters : List (String × EngineCfg) :=
  [("baseline_bow", { tagBoost := 0, sourceBoost := 0 }),
   ("tag_bias", { tagBoost := 1/5, sourceBoost := 0 }),
   ("source_bias", { tagBoost := 0, sourceBoost := 1/20 })]

/-- The "research-diagram" case of `default_benchmark_cases`. -/
def researchDiagramCase : RetrievalBenchmarkCase :=
  { id := "research-diagram",
    query := "attention diagram for transformers",
    relevantIds := ["text-transformer", "image-attention"],
    topK := 3,
    bundle := fromTexts
      [{ id := "text-transformer",
         content := "Transformer paper overview with attention diagrams and layer norms",
         tags := ["nlp", "attention"] },
       { id := "text-cv",
         content := "CNN architecture with pooling layers and feature maps",
         tags := ["cv"] }]
      [{ id := "image-attention",
         content := "A heatmap showing transformer attention weights over tokens",
         tags := ["attention", "visualization"] }]
      [] }

/-! ### Inputs used by concrete witnesses and counterexamples -/

/-- Index holding one document whose embedding has a perfect-square count
norm (9) and whose single tag `"t"` overlaps the query below.  Its dot product
with the query `"t u u v v"` is exactly `1/9`. -/
def cexDocs : List IndexedDocument :=
  indexAdd ratSqrt [] "d" "t z z w w" "doc" ["t"] "mixed" []

/-- Engine whose `tag_boost` is `0.00004`, small enough to expose the double
rounding in `RetrievalEngine.query`. -/
def cexCfg : EngineCfg := { tagBoost := 1/25000, sourceBoost := 0 }

/-- Index holding two documents, for the negative-`top_k` slicing behavior. -/
def c3cexDocs : List IndexedDocument :=
  indexAdd ratSqrt (indexAdd ratSqrt [] "d1" "a" "s1" [] "mixed" [])
    "d2" "b" "s2" [] "mixed" []

/-- A benchmark case whose corpus repeats the document id `"a"`: both copies
are returned, so `relevant_found = ["a", "a"]` against `relevant_ids =
["a"]`. -/
def dupCase : RetrievalBenchmarkCase :=
  { id := "dup", query := "hello",
    relevantIds := ["a"], topK := 3,
    bundle := fromTexts
      [{ id := "a", content := "hello", tags := [] },
       { id := "a", content := "hello", tags := [] },
       { id := "x", content := "bye", tags := [] }] [] [] }

/-- One-document index for the boost-monotonicity witness. -/
def c7docs : List IndexedDocument :=
  indexAdd ratSqrt [] "d" "t" "s" ["t"] "mixed" []

/-- The hit `c7docs` yields for the query `"t"` (dot product exactly 1). -/
def c7hit : RetrievalHit :=
  { id := "d", score := 1, summary := "s", tags := ["t"], modality := "mixed",
    sources := [] }

/-- A single registered adapter, for the automation witnesses. -/
def c9wAdapters : List (String × EngineCfg) :=
  [("x", { tagBoost := 0, sourceBoost := 0 })]

/-! ### Helper lemmas -/

theorem floor_le_roundHE (q : ℚ) : ⌊q⌋ ≤ roundHE q := by
  unfold roundHE
  split_ifs <;> omega

theorem roundHE_le_floor_add_one (q : ℚ) : roundHE q ≤ ⌊q⌋ + 1 := by
  unfold roundHE
  split_ifs <;> omega

theorem roundHE_mono : Monotone roundHE := by
  intro a b h
  have hf : ⌊a⌋ ≤ ⌊b⌋ := Int.floor_mono h
  rcases lt_or_eq_of_le hf with hlt | heq
  · calc roundHE a ≤ ⌊a⌋ + 1 := roundHE_le_floor_add_one a
      _ ≤ ⌊b⌋ := by omega
      _ ≤ roundHE b := floor_le_roundHE b
  · unfold roundHE
    rw [heq]
    have hr : a - (⌊b⌋ : ℚ) ≤ b - (⌊b⌋ : ℚ) := by linarith
    split_ifs <;> first | omega | (exfalso; linarith)

theorem round4_mono : Monotone round4 := by
  intro a b h
  have h1 : a * 10000 ≤ b * 10000 := by linarith
  have h2 := roundHE_mono h1
  have h3 : ((roundHE (a * 10000) : ℤ) : ℚ) ≤ ((roundHE (b * 10000) : ℤ) : ℚ) := by
    exact_mod_cast h2
  unfold round4
  linarith

theorem round4_zero : round4 0 = 0 := by with_unfolding_all decide

theorem round4_one : round4 1 = 1 := by with_unfolding_all decide

theorem round4_nonneg {q : ℚ} (h0 : 0 ≤ q) : 0 ≤ round4 q := by
  have := round4_mono h0; rwa [round4_zero] at this

theorem round4_le_one {q : ℚ} (h1 : q ≤ 1) : round4 q ≤ 1 := by
  have := round4_mono h1; rwa [round4_one] at this

theorem round4_mem_unit {q : ℚ} (h0 : 0 ≤ q) (h1 : q ≤ 1) :
    0 ≤ round4 q ∧ round4 q ≤ 1 :=
  ⟨round4_nonneg h0, round4_le_one h1⟩

theorem insertHit_perm (a : RetrievalHit) (l : List RetrievalHit) :
    (insertHit a l).Perm (a :: l) := by
  induction l with
  | nil => simp [insertHit]
  | cons b t ih =>
    unfold insertHit
    split_ifs
    · exact ((ih.cons b).trans (List.Perm.swap a b t))
    · exact List.Perm.refl _

theorem sortHits_perm (l : List RetrievalHit) : (sortHits l).Perm l := by
  induction l with
  | nil => simp [sortHits]
  | cons a t ih => exact (insertHit_perm a (sortHits t)).trans (ih.cons a)

theorem length_sortHits (l : List RetrievalHit) :
    (sortHits l).length = l.length := (sortHits_perm l).length_eq

theorem pairwise_insertHit (a : RetrievalHit) (l : List RetrievalHit)
    (h : l.Pairwise (fun x y => y.score ≤ x.score)) :
    (insertHit a l).Pairwise (fun x y => y.score ≤ x.score) := by
  induction l with
  | nil => simp [insertHit]
  | cons b t ih =>
    rw [List.pairwise_cons] at h
    obtain ⟨hb, ht⟩ := h
    unfold insertHit
    split_ifs with hab
    · refine List.Pairwise.cons ?_ (ih ht)
      intro y hy
      have hy' : y ∈ a :: t := (insertHit_perm a t).mem_iff.mp hy
      rcases List.mem_cons.mp hy' with rfl | hyt
      · exact le_of_lt hab
      · exact hb y hyt
    · refine List.Pairwise.cons ?_ (List.Pairwise.cons hb ht)
      intro y hy
      rcases List.mem_cons.mp hy with rfl | hyt
      · exact le_of_not_lt hab
      · exact le_trans (hb y hyt) (le_of_not_lt hab)

theorem sortHits_sorted (l : List RetrievalHit) :
    (sortHits l).Pairwise (fun x y => y.score ≤ x.score) := by
  induction l with
  | nil => simp [sortHits]
  | cons a t ih => exact pairwise_insertHit a (sortHits t) ih

theorem pyTake_sublist (k : ℤ) (l : List α) : (pyTake k l).Sublist l := by
  unfold pyTake
  split_ifs <;> exact List.take_sublist _ _

theorem pyTake_of_length_le (k : ℤ) (l : List α) (h : (l.length : ℤ) ≤ k) :
    pyTake k l = l := by
  have h0 : 0 ≤ k := le_trans (Int.ofNat_nonneg l.length) h
  unfold pyTake
  rw [if_pos h0]
  exact List.take_of_length_le (by omega)

theorem length_pyTake_nonneg (k : ℤ) (l : List α) (h : 0 ≤ k) :
    (pyTake k l).length = min k.toNat l.length := by
  unfold pyTake
  rw [if_pos h, List.length_take]

theorem length_pyTake_neg (k : ℤ) (l : List α) (h : k < 0) :
    (pyTake k l).length = l.length - (-k).toNat := by
  unfold pyTake
  rw [if_neg (by omega), List.length_take]
  omega

theorem uniqKeys_subset (l : List String) : uniqKeys l ⊆ l := by
  induction l with
  | nil => simp [uniqKeys]
  | cons t ts ih =>
    intro x hx
    rw [uniqKeys, List.mem_cons] at hx
    rcases hx with rfl | hx
    · exact List.mem_cons_self x ts
    · exact List.mem_cons_of_mem t (ih (List.mem_filter.mp hx).1)

theorem mem_counts_pos (l : List String) (p : String × ℕ) (hp : p ∈ counts l) :
    0 < p.2 := by
  unfold counts at hp
  obtain ⟨t, ht, rfl⟩ := List.mem_map.mp hp
  exact List.count_pos_iff.mpr (uniqKeys_subset l ht)

theorem counts_eq_nil_iff (l : List String) : counts l = [] ↔ l = [] := by
  cases l with
  | nil => simp [counts, uniqKeys]
  | cons t ts => simp [counts, uniqKeys]

theorem cntNormSq_pos (l : List String) (h : l ≠ []) :
    0 < cntNormSq (counts l) := by
  have hc : counts l ≠ [] := fun hnil => h ((counts_eq_nil_iff l).mp hnil)
  cases hcl : counts l with
  | nil => exact absurd hcl hc
  | cons p rest =>
    have hp : 0 < p.2 := mem_counts_pos l p (hcl ▸ List.mem_cons_self p rest)
    unfold cntNormSq
    rw [List.map_cons, List.sum_cons]
    exact Nat.lt_of_lt_of_le (Nat.mul_pos hp hp) (Nat.le_add_right _ _)

theorem cast_sum_sq (c : List (String × ℕ)) :
    ((cntNormSq c : ℕ) : ℚ) = (c.map (fun p => ((p.2 : ℚ)) ^ 2)).sum := by
  induction c with
  | nil => simp [cntNormSq]
  | cons p rest ih =>
    unfold cntNormSq at *
    push_cast [List.map_cons, List.sum_cons] at *
    rw [ih]; ring

theorem pyTake_zero (l : List α) : pyTake 0 l = [] := by
  unfold pyTake
  rw [if_pos le_rfl]
  rfl

theorem natSqrtAux_pos : ∀ m n : ℕ, 0 < m → m ≤ n → 0 < natSqrtAux m n := by
  intro m
  induction m with
  | zero => intro n h _; exact absurd h (lt_irrefl 0)
  | succ k ih =>
    intro n _ hmn
    unfold natSqrtAux
    split_ifs with h
    · exact Nat.succ_pos k
    · rcases Nat.eq_zero_or_pos k with rfl | hk
      · exact absurd (by simpa using hmn) h
      · exact ih n hk (le_trans (Nat.le_succ k) hmn)

theorem ratSqrt_pos {n : ℕ} (hn : 0 < n) : 0 < ratSqrt n := by
  unfold ratSqrt
  exact_mod_cast natSqrtAux_pos n n hn le_rfl

/-- The id of an adjusted hit is the id of the raw hit (record update). -/
theorem engineAdjust_id (cfg : EngineCfg) (qt : Finset String) (h : RetrievalHit) :
    (engineAdjust cfg qt h).id = h.id := rfl

/-- Permutation form of `engineQuery` when `top_k` covers the whole index:
the returned ids are a permutation of the stored document ids. -/
theorem engineQuery_ids_perm (s : ℕ → ℚ) (cfg : EngineCfg)
    (docs : List IndexedDocument) (text : String) (k : ℤ)
    (hk : (docs.length : ℤ) ≤ k) :
    ((engineQuery s cfg docs text k).map (fun h => h.id)).Perm
      (docs.map (fun d => d.id)) := by
  unfold engineQuery indexQuery
  set mk := fun d : IndexedDocument =>
    ({ id := d.id, score := round4 (similarity (embed_text s text) d.vector),
       summary := d.summary, tags := d.tags, modality := d.modality,
       sources := d.sources } : RetrievalHit) with hmk
  have hlen1 : ((sortHits (docs.map mk)).length : ℤ) ≤ k := by
    rw [length_sortHits, List.length_map]; exact hk
  rw [pyTake_of_length_le _ _ hlen1]
  set adj := engineAdjust cfg (tokenSet text) with hadj
  have hlen2 : ((sortHits ((sortHits (docs.map mk)).map adj)).length : ℤ) ≤ k := by
    rw [length_sortHits, List.length_map, length_sortHits, List.length_map]
    exact hk
  rw [pyTake_of_length_le _ _ hlen2]
  have hids : ((sortHits (docs.map mk)).map adj).map (fun h => h.id)
      = (sortHits (docs.map mk)).map (fun h => h.id) := by
    rw [List.map_map]; rfl
  have hmkids : (docs.map mk).map (fun h => h.id) = docs.map (fun d => d.id) := by
    rw [List.map_map]; rfl
  have p1 := (sortHits_perm ((sortHits (docs.map mk)).map adj)).map (fun h => h.id)
  have p2 := (sortHits_perm (docs.map mk)).map (fun h => h.id)
  rw [hids] at p1
  rw [hmkids] at p2
  exact p1.trans p2

/-! ### C1 -/

/-- C1 (amended): every hit `RetrievalEngine.query` returns is an index hit
adjusted by `round4(index_score + tag_boost·|query_tokens ∩ tags| +
source_boost·[sources ≠ ∅])` — where `index_score` is the dot product already
rounded to 4 decimals by the index, not the raw dot product — and the results
are sorted descending by adjusted score and truncated to `top_k`. -/
theorem c1_engineQuery_spec (s : ℕ → ℚ) (cfg : EngineCfg)
    (docs : List IndexedDocument) (text : String) (k : ℕ) :
    (∀ h ∈ engineQuery s cfg docs text (k : ℤ),
        ∃ h0 ∈ indexQuery s docs text (k : ℤ),
          h = engineAdjust cfg (tokenSet text) h0 ∧
          h.score = round4 (h0.score
            + cfg.tagBoost * (((tokenSet text) ∩ h0.tags.toFinset).card : ℚ)
            + (if h0.sources = [] then 0 else cfg.sourceBoost)))
    ∧ (engineQuery s cfg docs text (k : ℤ)).Pairwise (fun a b => b.score ≤ a.score)
    ∧ (engineQuery s cfg docs text (k : ℤ)).length ≤ k := by
  refine ⟨?_, ?_, ?_⟩
  · intro h hmem
    have h1 : h ∈ sortHits ((indexQuery s docs text (k : ℤ)).map
        (engineAdjust cfg (tokenSet text))) :=
      (pyTake_sublist _ _).subset hmem
    have h2 := (sortHits_perm _).mem_iff.mp h1
    obtain ⟨h0, hh0, rfl⟩ := List.mem_map.mp h2
    exact ⟨h0, hh0, rfl, rfl⟩
  · exact (sortHits_sorted _).sublist (pyTake_sublist _ _)
  · show (pyTake (k : ℤ) _).length ≤ k
    rw [length_pyTake_nonneg _ _ (Int.ofNat_nonneg k)]
    exact le_trans (min_le_left _ _) (by simp)

/-- Witness for C1's theorem at a concrete engine state. -/
theorem c1_engineQuery_spec_witness :
    (engineQuery ratSqrt cexCfg cexDocs "t u u v v" ((1 : ℕ) : ℤ)).Pairwise
      (fun a b => b.score ≤ a.score)
    ∧ (engineQuery ratSqrt cexCfg cexDocs "t u u v v" ((1 : ℕ) : ℤ)).length ≤ 1 :=
  ⟨(c1_engineQuery_spec ratSqrt cexCfg cexDocs "t u u v v" 1).2.1,
   (c1_engineQuery_spec ratSqrt cexCfg cexDocs "t u u v v" 1).2.2⟩

attribute [local semireducible] Rat.mul Rat.inv Rat.add Rat.sub

set_option maxRecDepth 6000

/-- C1 counterexample: the engine adjusts the ALREADY-ROUNDED index score, so
its result (0.1111) differs from the claim's formula applied to the raw dot
product (round4(1/9 + 0.00004) = 0.1112).  The single stored document's dot
product with the query is exactly 1/9, its tag overlap with the query tokens
is 1, and `tag_boost = 1/25000`. -/
theorem c1_counterexample :
    (engineQuery ratSqrt cexCfg cexDocs "t u u v v" 1).map (fun h => h.score)
        = [1111/10000]
    ∧ similarity (embed_text ratSqrt "t u u v v") (embed_text ratSqrt "t z z w w")
        = 1/9
    ∧ (((tokenSet "t u u v v") ∩ (["t"] : List String).toFinset).card : ℚ) = 1
    ∧ round4 (similarity (embed_text ratSqrt "t u u v v")
          (embed_text ratSqrt "t z z w w") + cexCfg.tagBoost * 1 + 0)
        = 1112/10000
    ∧ (1111/10000 : ℚ) ≠ 1112/10000 := by
  decide

/-! ### C2 -/

/-- C2 (amended): every weight of `embed_text` is nonnegative; the empty
string embeds to the empty mapping; and for every text with at least one
token (texts that are empty or whitespace-only have none and embed to the
empty mapping), the squared L2 norm of the embedded vector is exactly 1
whenever `s` returns the exact square root of the squared count sum. -/
theorem c2_embed_normalization (s : ℕ → ℚ) (hs : ∀ n : ℕ, 0 < n → 0 < s n) :
    (∀ (text : String), ∀ p ∈ embed_text s text, 0 ≤ p.2)
    ∧ embed_text s "" = []
    ∧ ∀ (text : String), tokenize text ≠ [] →
        s (cntNormSq (counts (tokenize text))) ^ 2
            = (cntNormSq (counts (tokenize text)) : ℚ) →
        sumSqWeights (embed_text s text) = 1 := by
  refine ⟨?_, rfl, ?_⟩
  · intro text p hp
    simp only [embed_text, normalize] at hp
    obtain ⟨q, hq, rfl⟩ := List.mem_map.mp hp
    have hcne : counts (tokenize text) ≠ [] := by
      intro hnil
      rw [hnil] at hq
      exact absurd hq (List.not_mem_nil q)
    have hN : 0 < cntNormSq (counts (tokenize text)) :=
      cntNormSq_pos _ (fun h => hcne ((counts_eq_nil_iff _).mpr h))
    have hd : 0 < (if s (cntNormSq (counts (tokenize text))) = 0 then 1
        else s (cntNormSq (counts (tokenize text)))) := by
      split_ifs with h0
      · exact zero_lt_one
      · exact hs _ hN
    exact div_nonneg (Nat.cast_nonneg _) (le_of_lt hd)
  · intro text htok hsq
    have hN : 0 < cntNormSq (counts (tokenize text)) := cntNormSq_pos _ htok
    have hsN : 0 < s (cntNormSq (counts (tokenize text))) := hs _ hN
    have hNne : ((cntNormSq (counts (tokenize text)) : ℕ) : ℚ) ≠ 0 := by
      exact_mod_cast Nat.pos_iff_ne_zero.mp hN
    simp only [sumSqWeights, embed_text, normalize, if_neg (ne_of_gt hsN),
      List.map_map]
    have hcomp :
        ((fun p : String × ℚ => p.2 ^ 2) ∘
          (fun p : String × ℕ =>
            (p.1, (p.2 : ℚ) / s (cntNormSq (counts (tokenize text))))))
        = fun p : String × ℕ =>
            (p.2 : ℚ) ^ 2 * (s (cntNormSq (counts (tokenize text))) ^ 2)⁻¹ := by
      funext p
      rw [Function.comp_apply, div_pow, div_eq_mul_inv]
    rw [hcomp, List.sum_map_mul_right, ← cast_sum_sq, hsq, mul_inv_cancel₀ hNne]

/-- C2 counterexample: the whitespace-only string `" "` is a non-empty input
text, yet it embeds to the empty mapping, whose L2 norm is 0, not 1. -/
theorem c2_counterexample :
    (" " : String) ≠ "" ∧ embed_text ratSqrt " " = []
    ∧ sumSqWeights (embed_text ratSqrt " ") = 0
    ∧ (0 : ℚ) ≠ 1 := by
  decide

/-- Witness for C2's theorem: the exact-square-root hypothesis holds for
`ratSqrt`, and the four-distinct-token text `"a b c d"` has count norm
`√4 = 2`, giving squared weight sum exactly 1. -/
theorem c2_embed_normalization_witness :
    embed_text ratSqrt "" = []
    ∧ sumSqWeights (embed_text ratSqrt "a b c d") = 1
    ∧ (0 : ℚ) ≤ ((embed_text ratSqrt "a b c d").headI).2 := by
  have h := c2_embed_normalization ratSqrt (fun n hn => ratSqrt_pos hn)
  exact ⟨h.2.1, h.2.2 "a b c d" (by decide) (by decide),
    h.1 "a b c d" _ (by decide)⟩

/-! ### C3 -/

/-- C3 (amended): for `top_k ≥ 0` the index returns exactly
`min(top_k, document_count)` hits (hence never more than that bound), and
`top_k = 0` yields an empty result; but a negative `top_k` is a Python slice
`[:top_k]` that drops `|top_k|` trailing hits rather than yielding an empty
result. -/
theorem c3_indexQuery_topk (s : ℕ → ℚ) (docs : List IndexedDocument)
    (text : String) (k : ℤ) :
    (0 ≤ k → (indexQuery s docs text k).length = min k.toNat docs.length)
    ∧ indexQuery s docs text 0 = []
    ∧ (k < 0 → (indexQuery s docs text k).length = docs.length - (-k).toNat) := by
  have hlen : ∀ (f : IndexedDocument → RetrievalHit),
      (sortHits (docs.map f)).length = docs.length := by
    intro f; rw [length_sortHits, List.length_map]
  refine ⟨?_, ?_, ?_⟩
  · intro hk
    show (pyTake k _).length = _
    rw [length_pyTake_nonneg _ _ hk, hlen]
  · show pyTake 0 _ = []
    exact pyTake_zero _
  · intro hk
    show (pyTake k _).length = _
    rw [length_pyTake_neg _ _ hk, hlen]

/-- C3 counterexample: with two stored documents, `top_k = -1` returns one
hit, not an empty result (Python's `[:-1]` drops only the last element). -/
theorem c3_counterexample :
    (-1 : ℤ) ≤ 0
    ∧ indexQuery ratSqrt c3cexDocs "a" (-1) ≠ []
    ∧ (indexQuery ratSqrt c3cexDocs "a" (-1)).length = 1 := by
  decide

/-- Witness for C3's theorem at a concrete index state. -/
theorem c3_indexQuery_topk_witness :
    (indexQuery ratSqrt c3cexDocs "a" 1).length = min (1 : ℤ).toNat c3cexDocs.length
    ∧ indexQuery ratSqrt c3cexDocs "a" 0 = [] :=
  ⟨(c3_indexQuery_topk ratSqrt c3cexDocs "a" 1).1 (by decide),
   (c3_indexQuery_topk ratSqrt c3cexDocs "a" 1).2.1⟩

/-! ### C4 -/

/-- C4 (amended): the reported metrics are `round4` of the stated ratios
(4-decimal rounding included, which the unrounded formulas of the claim
omit); precision always lies in `[0, 1]`; recall is nonnegative, and lies in
`[0, 1]` whenever the returned hit ids are free of duplicates — with
duplicated corpus ids, `relevant_found` can repeat an id and recall exceeds
1. -/
theorem c4_precision_recall_bounds (s : ℕ → ℚ) (cfg : EngineCfg)
    (case : RetrievalBenchmarkCase) :
    (caseResult s cfg case).precisionAtK
        = round4 (((caseResult s cfg case).relevantFound.length : ℚ)
            / ((max (caseResult s cfg case).hits.length 1 : ℕ) : ℚ))
    ∧ (caseResult s cfg case).recallAtK
        = round4 (((caseResult s cfg case).relevantFound.length : ℚ)
            / ((max case.relevantIds.length 1 : ℕ) : ℚ))
    ∧ 0 ≤ (caseResult s cfg case).precisionAtK
    ∧ (caseResult s cfg case).precisionAtK ≤ 1
    ∧ 0 ≤ (caseResult s cfg case).recallAtK
    ∧ (((caseResult s cfg case).hits.map (fun h => h.id)).Nodup →
        (caseResult s cfg case).recallAtK ≤ 1) := by
  have hrf_le : (caseResult s cfg case).relevantFound.length
      ≤ (caseResult s cfg case).hits.length := by
    show (((caseResult s cfg case).hits.map (fun h => h.id)).filter _).length ≤ _
    exact le_trans (List.length_filter_le _ _) (le_of_eq (List.length_map _ _))
  have hden_hits : (0 : ℚ) < ((max (caseResult s cfg case).hits.length 1 : ℕ) : ℚ) := by
    exact_mod_cast lt_of_lt_of_le zero_lt_one (le_max_right _ 1)
  have hden_rel : (0 : ℚ) < ((max case.relevantIds.length 1 : ℕ) : ℚ) := by
    exact_mod_cast lt_of_lt_of_le zero_lt_one (le_max_right _ 1)
  have hprec01 := round4_mem_unit
    (div_nonneg (Nat.cast_nonneg (caseResult s cfg case).relevantFound.length)
      (le_of_lt hden_hits))
    ((div_le_one hden_hits).mpr (by
      exact_mod_cast le_trans hrf_le (le_max_left _ 1)))
  refine ⟨rfl, rfl, hprec01.1, hprec01.2, ?_, ?_⟩
  · exact round4_nonneg
      (div_nonneg (Nat.cast_nonneg _) (le_of_lt hden_rel))
  · intro hnodup
    have hsub : (caseResult s cfg case).relevantFound ⊆ case.relevantIds := by
      intro x hx
      have hx' := List.mem_filter.mp hx
      simpa using hx'.2
    have hnodup' : (caseResult s cfg case).relevantFound.Nodup :=
      List.Nodup.filter _ hnodup
    have hlen : (caseResult s cfg case).relevantFound.length
        ≤ case.relevantIds.length := (hnodup'.subperm hsub).length_le
    exact round4_le_one ((div_le_one hden_rel).mpr (by
      exact_mod_cast le_trans hlen (le_max_left _ 1)))

/-- C4 counterexample: a corpus repeating the id `"a"` (both copies returned)
with `relevant_ids = ["a"]` gives reported recall `round4(2/1) = 2 > 1`, and
the reported precision is `round4(2/3) = 0.6667 ≠ 2/3`, so the claim's exact
(unrounded) equality and its `recall ≤ 1` bound both fail. -/
theorem c4_counterexample :
    ((benchRun ratSqrt ⟨0, 0⟩ [dupCase]).results.headI).recallAtK = 2
    ∧ ¬(((benchRun ratSqrt ⟨0, 0⟩ [dupCase]).results.headI).recallAtK ≤ 1)
    ∧ ((benchRun ratSqrt ⟨0, 0⟩ [dupCase]).results.headI).precisionAtK = 6667/10000
    ∧ ((benchRun ratSqrt ⟨0, 0⟩ [dupCase]).results.headI).relevantFound.length = 2
    ∧ ((benchRun ratSqrt ⟨0, 0⟩ [dupCase]).results.headI).hits.length = 3
    ∧ (6667/10000 : ℚ) ≠ 2/3 := by
  decide

/-- Witness for C4's theorem at a concrete benchmark case. -/
theorem c4_precision_recall_bounds_witness :
    0 ≤ (caseResult ratSqrt ⟨0, 0⟩ researchDiagramCase).precisionAtK
    ∧ (caseResult ratSqrt ⟨0, 0⟩ researchDiagramCase).recallAtK ≤ 1 :=
  ⟨(c4_precision_recall_bounds ratSqrt ⟨0, 0⟩ researchDiagramCase).2.2.1,
   (c4_precision_recall_bounds ratSqrt ⟨0, 0⟩ researchDiagramCase).2.2.2.2.2
     (by decide)⟩

/-! ### C5 -/

/-- C5 (amended): on the built-in "research-diagram" case the corpus has
exactly 3 documents and `top_k = 3`, so ALL documents (both relevant ids
included) are always returned, whatever the similarity values; hence
`relevant_found` contains both relevant ids and `recall_at_k = 1.0`, but
`precision_at_k = round4(2/3) = 0.6667`, not 1.0.  This holds for every
square-root function `s`. -/
theorem c5_research_diagram (s : ℕ → ℚ) :
    ("text-transformer" ∈ ((benchRun s ⟨0, 0⟩ [researchDiagramCase]).results.headI).hits.map
        (fun h => h.id)
    ∧ "image-attention" ∈ ((benchRun s ⟨0, 0⟩ [researchDiagramCase]).results.headI).hits.map
        (fun h => h.id))
    ∧ ("text-transformer" ∈ ((benchRun s ⟨0, 0⟩ [researchDiagramCase]).results.headI).relevantFound
    ∧ "image-attention" ∈ ((benchRun s ⟨0, 0⟩ [researchDiagramCase]).results.headI).relevantFound)
    ∧ ((benchRun s ⟨0, 0⟩ [researchDiagramCase]).results.headI).recallAtK = 1
    ∧ ((benchRun s ⟨0, 0⟩ [researchDiagramCase]).results.headI).precisionAtK
        = 6667/10000 := by
  have h3 : (ingestBundle s researchDiagramCase.bundle).length = 3 := rfl
  have hperm : (((benchRun s ⟨0, 0⟩ [researchDiagramCase]).results.headI).hits.map
      (fun h => h.id)).Perm ["text-transformer", "text-cv", "image-attention"] :=
    engineQuery_ids_perm s ⟨0, 0⟩ (ingestBundle s researchDiagramCase.bundle)
      researchDiagramCase.query researchDiagramCase.topK (by rw [h3]; decide)
  have hrf : ((benchRun s ⟨0, 0⟩ [researchDiagramCase]).results.headI).relevantFound
      = (((benchRun s ⟨0, 0⟩ [researchDiagramCase]).results.headI).hits.map
          (fun h => h.id)).filter
        (fun hid => hid ∈ researchDiagramCase.relevantIds) := rfl
  have hpermF : (((benchRun s ⟨0, 0⟩ [researchDiagramCase]).results.headI).relevantFound).Perm
      ["text-transformer", "image-attention"] := by
    rw [hrf]
    exact (hperm.filter _).trans (by decide)
  have hlenF : (((benchRun s ⟨0, 0⟩ [researchDiagramCase]).results.headI).relevantFound).length
      = 2 := by rw [hpermF.length_eq]; rfl
  have hlenH : (((benchRun s ⟨0, 0⟩ [researchDiagramCase]).results.headI).hits).length = 3 := by
    have := hperm.length_eq
    rw [List.length_map] at this
    exact this
  refine ⟨⟨hperm.mem_iff.mpr (by decide), hperm.mem_iff.mpr (by decide)⟩,
    ⟨hpermF.mem_iff.mpr (by decide), hpermF.mem_iff.mpr (by decide)⟩, ?_, ?_⟩
  · show round4 ((((benchRun s ⟨0, 0⟩ [researchDiagramCase]).results.headI).relevantFound.length : ℚ)
        / ((max (researchDiagramCase.relevantIds).length 1 : ℕ) : ℚ)) = 1
    rw [hlenF]
    decide
  · show round4 ((((benchRun s ⟨0, 0⟩ [researchDiagramCase]).results.headI).relevantFound.length : ℚ)
        / ((max ((benchRun s ⟨0, 0⟩ [researchDiagramCase]).results.headI).hits.length 1 : ℕ) : ℚ))
        = 6667/10000
    rw [hlenF, hlenH]
    decide

/-- C5 counterexample: evaluating the Benchmark Runner on the built-in
"research-diagram" case (with the exact integer square root, which the
similarity values do not affect here): both relevant ids DO appear within the
returned top-3 hits and in `relevant_found`, yet `precision_at_k` is
`0.6667`, not `1.0` as the claim states. -/
theorem c5_counterexample :
    "text-transformer" ∈ ((benchRun ratSqrt ⟨0, 0⟩ [researchDiagramCase]).results.headI).hits.map
        (fun h => h.id)
    ∧ "image-attention" ∈ ((benchRun ratSqrt ⟨0, 0⟩ [researchDiagramCase]).results.headI).hits.map
        (fun h => h.id)
    ∧ "text-transformer" ∈ ((benchRun ratSqrt ⟨0, 0⟩ [researchDiagramCase]).results.headI).relevantFound
    ∧ "image-attention" ∈ ((benchRun ratSqrt ⟨0, 0⟩ [researchDiagramCase]).results.headI).relevantFound
    ∧ ((benchRun ratSqrt ⟨0, 0⟩ [researchDiagramCase]).results.headI).recallAtK = 1
    ∧ ((benchRun ratSqrt ⟨0, 0⟩ [researchDiagramCase]).results.headI).precisionAtK = 6667/10000
    ∧ ((benchRun ratSqrt ⟨0, 0⟩ [researchDiagramCase]).results.headI).precisionAtK ≠ 1 := by
  decide

/-! ### C6 -/

/-- C6: evaluation of the tokenizer at the inputs where the code diverges
from the claim.  Splitting, lowercasing and stripping of the characters that
ARE in the set work as claimed (last conjunct), but: a token consisting only
of strip-set punctuation is kept as the empty string (the comprehension's
guard tests the raw piece, which is never empty), so an all-punctuation
input embeds to `{"": 1.0}` (unit norm), not the empty vector; and the
double-quote character is not in the strip set (the source's `""` inside the
literal is adjacent-string concatenation, not an escaped quote), so `"` is
never stripped. -/
theorem c6_tokenizer_behavior :
    tokenize "..." = [""]
    ∧ embed_text ratSqrt "..." = [("", 1)]
    ∧ sumSqWeights (embed_text ratSqrt "...") = 1
    ∧ tokenize "...\"" = ["\""]
    ∧ ('\"' ∉ punctChars)
    ∧ ('\'' ∈ punctChars)
    ∧ tokenize "Hello, (World)!" = ["hello", "world"] := by
  decide

/-! ### C7 -/

/-- C7: for a fixed index state, query and `top_k`, raising `tag_boost` from
`b1` to `b2 ≥ b1` (both nonnegative, `source_boost` fixed) never decreases
the adjusted score of an index hit whose tags intersect the query-token set,
and leaves the adjusted score of a hit with no overlap unchanged. -/
theorem c7_tag_boost_monotonic (s : ℕ → ℚ) (docs : List IndexedDocument)
    (text : String) (k : ℤ) (sb b1 b2 : ℚ) (_hb1 : 0 ≤ b1) (hb : b1 ≤ b2) :
    ∀ h ∈ indexQuery s docs text k,
      (((tokenSet text) ∩ h.tags.toFinset).Nonempty →
        (engineAdjust ⟨b1, sb⟩ (tokenSet text) h).score
          ≤ (engineAdjust ⟨b2, sb⟩ (tokenSet text) h).score)
      ∧ (((tokenSet text) ∩ h.tags.toFinset) = ∅ →
        (engineAdjust ⟨b1, sb⟩ (tokenSet text) h).score
          = (engineAdjust ⟨b2, sb⟩ (tokenSet text) h).score) := by
  intro h _
  constructor
  · intro _
    show round4 _ ≤ round4 _
    refine round4_mono (add_le_add_right (add_le_add_left ?_ h.score) _)
    exact mul_le_mul_of_nonneg_right hb (Nat.cast_nonneg _)
  · intro hempty
    show round4 _ = round4 _
    rw [hempty]
    norm_num

/-- Witness for C7's theorem: a stored document tagged `"t"` matching the
query token `"t"`, with boosts 0 and 1. -/
theorem c7_tag_boost_monotonic_witness :
    ∃ h ∈ indexQuery ratSqrt c7docs "t" 1,
      (engineAdjust ⟨0, 0⟩ (tokenSet "t") h).score
        ≤ (engineAdjust ⟨1, 0⟩ (tokenSet "t") h).score := by
  refine ⟨c7hit, by decide, ?_⟩
  exact ((c7_tag_boost_monotonic ratSqrt c7docs "t" 1 0 0 1 le_rfl zero_le_one)
    c7hit (by decide)).1 (by decide)

/-! ### C8/C9 helper lemmas on the automation loop -/

theorem pushBounded_length_le (limit : ℕ) (hist : List AdapterBenchmarkResult)
    (x : AdapterBenchmarkResult) (h : hist.length ≤ limit) :
    (pushBounded limit hist x).length ≤ limit := by
  unfold pushBounded
  rw [List.length_drop, List.length_append]
  simp only [List.length_singleton]
  omega

theorem runAllGo_hist_le (s : ℕ → ℚ) (adapters : List (String × EngineCfg))
    (dur : String → ℚ) (cases : List RetrievalBenchmarkCase) (track : Bool)
    (limit : ℕ) :
    ∀ (ns : List String)
      (acc : List AdapterBenchmarkResult × List AdapterBenchmarkResult),
      acc.2.length ≤ limit →
      ((runAllGo s adapters dur cases track limit ns acc).2).length ≤ limit := by
  intro ns
  induction ns with
  | nil => intro acc h; exact h
  | cons n ns ih =>
    intro acc h
    unfold runAllGo
    cases hl : adapters.lookup n with
    | none => exact ih acc h
    | some cfg =>
      refine ih _ ?_
      cases track with
      | false => simpa using h
      | true => simpa using pushBounded_length_le limit acc.2 _ h

theorem runAllGo_hist_untracked (s : ℕ → ℚ) (adapters : List (String × EngineCfg))
    (dur : String → ℚ) (cases : List RetrievalBenchmarkCase) (limit : ℕ) :
    ∀ (ns : List String)
      (acc : List AdapterBenchmarkResult × List AdapterBenchmarkResult),
      (runAllGo s adapters dur cases false limit ns acc).2 = acc.2 := by
  intro ns
  induction ns with
  | nil => intro acc; rfl
  | cons n ns ih =>
    intro acc
    unfold runAllGo
    cases hl : adapters.lookup n with
    | none => exact ih acc
    | some cfg => simpa using ih _

theorem runAllGo_runs_spec (s : ℕ → ℚ) (adapters : List (String × EngineCfg))
    (dur : String → ℚ) (cases : List RetrievalBenchmarkCase) (track : Bool)
    (limit : ℕ) :
    ∀ (ns : List String)
      (acc : List AdapterBenchmarkResult × List AdapterBenchmarkResult),
      (∀ r ∈ acc.1, ∃ cfg, adapters.lookup r.adapter = some cfg
        ∧ r.suite = benchRun s cfg cases) →
      ∀ r ∈ (runAllGo s adapters dur cases track limit ns acc).1,
        ∃ cfg, adapters.lookup r.adapter = some cfg
          ∧ r.suite = benchRun s cfg cases := by
  intro ns
  induction ns with
  | nil => intro acc hacc; exact hacc
  | cons n ns ih =>
    intro acc hacc
    unfold runAllGo
    cases hl : adapters.lookup n with
    | none => exact ih acc hacc
    | some cfg =>
      refine ih _ ?_
      intro r hr
      rcases List.mem_append.mp hr with hr | hr
      · exact hacc r hr
      · have : r = AdapterBenchmarkResult.mk n (benchRun s cfg cases) (dur n) := by
          simpa using hr
        subst this
        exact ⟨cfg, hl, rfl⟩

/-! ### C8 -/

/-- C8: the history always stays within `history_limit`; `run_all` with
`track_history = false` leaves it untouched (appends during tracked runs are
the only mutation); and with capacity 2, three sequential tracked `run_all`
calls that each append one adapter result leave exactly the two most recent
results. -/
theorem c8_history_invariants (s : ℕ → ℚ) (adapters : List (String × EngineCfg))
    (dur : String → ℚ) (cases : List RetrievalBenchmarkCase)
    (adapterNames : Option (List String)) (limit : ℕ) :
    (∀ (hist : List AdapterBenchmarkResult) (track : Bool),
        hist.length ≤ limit →
        ((runAll s adapters dur cases adapterNames track limit hist).2).length ≤ limit)
    ∧ (∀ hist, (runAll s adapters dur cases adapterNames false limit hist).2 = hist)
    ∧ (∀ (cfg : EngineCfg) (d1 d2 d3 : String → ℚ),
        (runAll s [("x", cfg)] d3 cases none true 2
          ((runAll s [("x", cfg)] d2 cases none true 2
            ((runAll s [("x", cfg)] d1 cases none true 2 []).2)).2)).2
        = [{ adapter := "x", suite := benchRun s cfg cases, durationMs := d2 "x" },
           { adapter := "x", suite := benchRun s cfg cases, durationMs := d3 "x" }]) := by
  refine ⟨?_, ?_, ?_⟩
  · intro hist track h
    exact runAllGo_hist_le s adapters dur cases track limit _ ([], hist) h
  · intro hist
    exact runAllGo_hist_untracked s adapters dur cases limit _ ([], hist)
  · intro cfg d1 d2 d3
    rfl

/-- Witness for C8's theorem at concrete inputs. -/
theorem c8_history_invariants_witness :
    ((runAll ratSqrt c9wAdapters (fun _ => 0) [] none true 2 []).2).length ≤ 2
    ∧ (runAll ratSqrt c9wAdapters (fun _ => 0) [] none false 2 []).2 = [] :=
  ⟨(c8_history_invariants ratSqrt c9wAdapters (fun _ => 0) [] none 2).1 [] true
      (by decide),
   (c8_history_invariants ratSqrt c9wAdapters (fun _ => 0) [] none 2).2.1 []⟩

/-! ### C9 -/

/-- C9: every per-adapter result `run_all` produces carries exactly the suite
obtained by building that adapter's engine from its registered factory and
running the Benchmark Runner manually on the same cases. -/
theorem c9_runAll_refines_manual (s : ℕ → ℚ)
    (adapters : List (String × EngineCfg)) (dur : String → ℚ)
    (cases : List RetrievalBenchmarkCase) (adapterNames : Option (List String))
    (track : Bool) (limit : ℕ) (hist : List AdapterBenchmarkResult) :
    ∀ r ∈ (runAll s adapters dur cases adapterNames track limit hist).1.runs,
      ∃ cfg, adapters.lookup r.adapter = some cfg
        ∧ r.suite = benchRun s cfg cases := by
  intro r hr
  exact runAllGo_runs_spec s adapters dur cases track limit _ ([], hist)
    (by intro x hx; exact absurd hx (List.not_mem_nil x)) r hr

/-- Witness for C9's theorem: the single registered adapter's reported suite
is the manual benchmark suite. -/
theorem c9_runAll_refines_manual_witness :
    ∃ cfg, c9wAdapters.lookup "x" = some cfg
      ∧ benchRun ratSqrt { tagBoost := 0, sourceBoost := 0 } ([] : List RetrievalBenchmarkCase)
          = benchRun ratSqrt cfg [] :=
  c9_runAll_refines_manual ratSqrt c9wAdapters (fun _ => 0) [] none true 2 []
    { adapter := "x",
      suite := benchRun ratSqrt { tagBoost := 0, sourceBoost := 0 } [],
      durationMs := 0 }
    (by decide)

/-! ### C10 -/

/-- C10: passing `adapter_names = []` is treated exactly like omitting the
argument — `adapter_names or list(self.adapters.keys())` makes the empty list
fall back to every registered adapter. -/
theorem c10_empty_names_runs_all (s : ℕ → ℚ)
    (adapters : List (String × EngineCfg)) (dur : String → ℚ)
    (cases : List RetrievalBenchmarkCase) (track : Bool) (limit : ℕ)
    (hist : List AdapterBenchmarkResult) :
    runAll s adapters dur cases (some []) track limit hist
      = runAll s adapters dur cases none track limit hist := rfl

end Retrieval
